import Mathlib

/-!
# Verification of the lossless-lottery contract core

Shallow embedding of `src/lossless_lott/smart-contracts/src/lib.rs` (a NEAR
smart contract written in Rust) and proofs about its ledger, yield estimator
and draw engine.

Modelling choices, all taken from the source:
* `AccountId` is an opaque comparable token; we use `String`.
* `Balance` is Rust `u128`; we use `Nat` and apply `% 2^128` exactly where the
  Rust code performs arithmetic that can wrap (release-mode `+=` and `sum()`),
  matching the reference behavior which is silent on overflow.
* `near_sdk::collections::UnorderedMap` is modelled as an insertion-ordered
  association list: `insert` overwrites the value of an existing key in place
  and appends a fresh key at the end; `values_as_vector` / `keys_as_vector`
  iterate in that stored order.
* A Rust `assert!` panic aborts the NEAR transaction and reverts every state
  change, so a failing operation is modelled as returning an error together
  with the unchanged pre-state.  The panic messages "Deposit too low" and
  "No players to select a winner from" are represented by the error
  constructors `InvalidDeposit` and `NoPlayers` (the names the spec uses).
* `env::random_seed()` is an externally supplied byte sequence; we pass it as
  an explicit `entropy : List Nat` argument and also report how many of its
  bytes the operation consumed, so that "no entropy consumed on the error
  path" is a statable fact.
* The fire-and-forget `Promise` in `invest` carries no observable effect on
  the contract state and is not modelled.
-/

/-- The `u128` modulus: Rust `Balance` arithmetic wraps modulo this value in
release builds. -/
def U128MOD : Nat := 2 ^ 128

/-- Account identifiers: opaque, comparable, hashable tokens. -/
abbrev AccountId := String

/-- Errors of the contract core (in the source these are `assert!` panics;
the constructor names follow the spec's error taxonomy). -/
inductive ContractError where
  | InvalidDeposit
  | NoPlayers
  deriving DecidableEq

/-- `UnorderedMap.insert`: overwrite the value of an existing key in place,
otherwise append the new entry at the end. -/
def mapInsert {β : Type} (k : AccountId) (v : β) (l : List (AccountId × β)) :
    List (AccountId × β) :=
  if l.any (fun p => p.1 = k) then
    l.map (fun p => if p.1 = k then (k, v) else p)
  else
    l ++ [(k, v)]

/-- `UnorderedMap.get`: the value stored under a key, if any. -/
def mapGet {β : Type} (k : AccountId) (l : List (AccountId × β)) : Option β :=
  (l.find? (fun p => p.1 = k)).map Prod.snd

/-- The contract state (`struct Contract` in the source).  The two
`UnorderedMap`s are insertion-ordered association lists. -/
structure Contract where
  owner_id : AccountId
  staking_contract : AccountId
  investors : List (AccountId × Nat)
  players : List (AccountId × Nat)
  total_stake : Nat
  min_deposit : Nat
  deriving DecidableEq

/-- `Contract::new`: empty ledgers, zero aggregate stake. -/
def Contract.new (owner_id staking_contract : AccountId) (min_deposit : Nat) :
    Contract :=
  { owner_id := owner_id
    staking_contract := staking_contract
    investors := []
    players := []
    total_stake := 0
    min_deposit := min_deposit }

/-- `Contract::invest`: insert (overwrite) the caller's investor balance, add
the amount to `total_stake` with `u128` wrap-around (release-mode `+=`), and
fire the unobservable staking `Promise`. -/
def Contract.invest (c : Contract) (caller : AccountId) (amount : Nat) :
    Contract :=
  { c with
    investors := mapInsert caller amount c.investors
    total_stake := (c.total_stake + amount) % U128MOD }

/-- `Contract::play`: `assert!(play_amount >= self.min_deposit)`, then insert
(overwrite) the caller's player balance.  A failing assert panics, reverting
the transaction, so the pre-state is returned unchanged with the error. -/
def Contract.play (c : Contract) (caller : AccountId) (amount : Nat) :
    Except ContractError Unit × Contract :=
  if c.min_deposit ≤ amount then
    (Except.ok (), { c with players := mapInsert caller amount c.players })
  else
    (Except.error ContractError.InvalidDeposit, c)

/-- Wrapping `u128` sum, as Rust's release-mode `iter().sum::<u128>()`. -/
def wrapSum (l : List Nat) : Nat :=
  l.foldl (fun a v => (a + v) % U128MOD) 0

/-- `Contract::total_investment`: sum of all investor balances (in iteration
order of the map, with `u128` wrap-around). -/
def Contract.total_investment (c : Contract) : Nat :=
  wrapSum (c.investors.map Prod.snd)

/-- `Contract::total_player_deposit`: sum of all player balances. -/
def Contract.total_player_deposit (c : Contract) : Nat :=
  wrapSum (c.players.map Prod.snd)

/-- `Contract::simulate_profit`: `self.total_stake / 10` (integer floor
division). -/
def Contract.simulate_profit (c : Contract) : Nat :=
  c.total_stake / 10

/-- The `seed_array` construction in `select_winner`: start from 32 zero
bytes and copy the first `min(random_seed.len(), 32)` entropy bytes. -/
def buildSeed (entropy : List Nat) : List Nat :=
  let bytesToCopy := min entropy.length 32
  entropy.take bytesToCopy ++ List.replicate (32 - bytesToCopy) 0

/-- Model of the external `rand` crate's `StdRng::from_seed` followed by
`gen_range(0..n)`: a deterministic function of the 32-byte seed producing an
index smaller than `n` (for `n > 0`).  The exact ChaCha stream of `StdRng` is
library code outside this repository; no claim below depends on which
in-range index a given seed produces, only on determinism and range, which
any concrete model shares with it. -/
def stdRngGenRange (seed : List Nat) (n : Nat) : Nat :=
  seed.foldl (fun a b => a * 131 + b) 0 % n

/-- `Contract::select_winner` (a `&self` method, hence the returned state is
the unchanged receiver).  Result components: the drawn account or `NoPlayers`,
the number of entropy bytes consumed, and the post-state.  The emptiness
assert runs before `env::random_seed()` is requested, so the error path
consumes 0 entropy bytes; the success path copies `min(entropy.len(), 32)`
bytes into the seed. -/
def Contract.select_winner (c : Contract) (entropy : List Nat) :
    Except ContractError AccountId × Nat × Contract :=
  let players := c.players.map Prod.fst
  if players.isEmpty then
    (Except.error ContractError.NoPlayers, 0, c)
  else
    let seed := buildSeed entropy
    let winnerIndex := stdRngGenRange seed players.length
    (Except.ok (players.getD winnerIndex ""), min entropy.length 32, c)

/-- Fold a list of `(caller, amount)` invest calls over a state. -/
def Contract.investAll (c : Contract) (calls : List (AccountId × Nat)) :
    Contract :=
  calls.foldl (fun s p => s.invest p.1 p.2) c

/-! ## Helper lemmas about the map model and wrapping sums -/

lemma find_map_replace {β : Type} (k : AccountId) (v : β) :
    ∀ l : List (AccountId × β), l.any (fun p => p.1 = k) = true →
    (l.map (fun p => if p.1 = k then (k, v) else p)).find? (fun p => p.1 = k)
      = some (k, v) := by
  intro l
  induction l with
  | nil => intro h; simp at h
  | cons p t ih =>
    intro h
    by_cases hp : p.1 = k
    · simp [hp, List.find?]
    · have ht : t.any (fun q => q.1 = k) = true := by simpa [hp] using h
      simpa [hp, List.find?] using ih ht

lemma find_append_single {β : Type} (k : AccountId) (v : β) :
    ∀ l : List (AccountId × β), l.any (fun p => p.1 = k) = false →
    (l ++ [(k, v)]).find? (fun p => p.1 = k) = some (k, v) := by
  intro l
  induction l with
  | nil => simp [List.find?]
  | cons p t ih =>
    intro h
    simp only [List.any_cons, Bool.or_eq_false_iff, decide_eq_false_iff_not] at h
    obtain ⟨hp, ht⟩ := h
    simpa [hp, List.find?] using ih ht

lemma mapGet_mapInsert_self {β : Type} (k : AccountId) (v : β)
    (l : List (AccountId × β)) : mapGet k (mapInsert k v l) = some v := by
  unfold mapGet mapInsert
  by_cases h : l.any (fun p => p.1 = k)
  · rw [if_pos h, find_map_replace k v l h]
    rfl
  · rw [if_neg h, find_append_single k v l (Bool.eq_false_iff.mpr h)]
    rfl

lemma mapInsert_of_not_mem {β : Type} (k : AccountId) (v : β)
    (l : List (AccountId × β)) (h : k ∉ l.map Prod.fst) :
    mapInsert k v l = l ++ [(k, v)] := by
  unfold mapInsert
  rw [if_neg]
  intro hc
  rcases List.any_eq_true.mp hc with ⟨p, hpl, hpk⟩
  exact h (List.mem_map.mpr ⟨p, hpl, of_decide_eq_true hpk⟩)

lemma foldl_wrapAdd_eq (l : List Nat) : ∀ a : Nat,
    l.foldl (fun x v => (x + v) % U128MOD) (a % U128MOD) = (a + l.sum) % U128MOD := by
  induction l with
  | nil => intro a; simp
  | cons v t ih =>
    intro a
    simp only [List.foldl_cons, List.sum_cons]
    rw [Nat.mod_add_mod, ih (a + v), Nat.add_assoc]

lemma wrapSum_eq_sum_mod (l : List Nat) : wrapSum l = l.sum % U128MOD := by
  have h := foldl_wrapAdd_eq l 0
  simpa [wrapSum] using h

lemma total_investment_eq_sum_mod (c : Contract) :
    c.total_investment = (c.investors.map Prod.snd).sum % U128MOD :=
  wrapSum_eq_sum_mod _

/-! ## Claim theorems -/

/-- C2: for every state, `play(amount)` with `amount < min_deposit` fails with
`InvalidDeposit` and leaves the whole state (players, investors, aggregate
stake) unchanged; with `amount ≥ min_deposit` it succeeds and
inserts/overwrites the caller's entry in the player mapping with that
amount, touching nothing else. -/
theorem play_min_deposit_spec (c : Contract) (caller : AccountId) (amount : Nat) :
    (amount < c.min_deposit →
      c.play caller amount = (Except.error ContractError.InvalidDeposit, c)) ∧
    (c.min_deposit ≤ amount →
      c.play caller amount =
        (Except.ok (), { c with players := mapInsert caller amount c.players })) := by
  constructor
  · intro h
    simp [Contract.play, Nat.not_le.mpr h]
  · intro h
    simp [Contract.play, h]

/-- Witness for C2: with `min_deposit = 5`, playing 3 fails with
`InvalidDeposit` and changes nothing, playing 7 records the player. -/
theorem play_min_deposit_spec_witness :
    (Contract.new "o" "s" 5).play "p" 3
      = (Except.error ContractError.InvalidDeposit, Contract.new "o" "s" 5) ∧
    (Contract.new "o" "s" 5).play "p" 7
      = (Except.ok (), { Contract.new "o" "s" 5 with
          players := mapInsert "p" 7 (Contract.new "o" "s" 5).players }) :=
  ⟨(play_min_deposit_spec (Contract.new "o" "s" 5) "p" 3).1 (by decide),
   (play_min_deposit_spec (Contract.new "o" "s" 5) "p" 7).2 (by decide)⟩

/-- C3: on an empty player mapping, `select_winner` fails with `NoPlayers`
for every entropy byte sequence, consumes 0 entropy bytes (the emptiness
check precedes the `env::random_seed()` request), and leaves the state
unchanged. -/
theorem select_winner_empty_no_entropy (c : Contract) (entropy : List Nat)
    (h : c.players = []) :
    c.select_winner entropy = (Except.error ContractError.NoPlayers, 0, c) := by
  simp [Contract.select_winner, h]

/-- Witness for C3: a freshly constructed contract has no players, so the
draw fails with `NoPlayers` and consumes no entropy. -/
theorem select_winner_empty_no_entropy_witness :
    (Contract.new "o" "s" 5).select_winner [1, 2, 3]
      = (Except.error ContractError.NoPlayers, 0, Contract.new "o" "s" 5) :=
  select_winner_empty_no_entropy (Contract.new "o" "s" 5) [1, 2, 3] rfl

/-- C5 (code bug in the source): release-mode `total_stake += amount` wraps
modulo `2^128` instead of failing with `ArithmeticOverflow`: investing
`u128::MAX` and then 1 stores the wrapped value 0 in `total_stake`, while
both investor balances remain recorded. -/
theorem invest_overflow_wraps_total_stake :
    (((Contract.new "o" "s" 0).invest "a" (U128MOD - 1)).invest "b" 1).total_stake = 0 ∧
    (((Contract.new "o" "s" 0).invest "a" (U128MOD - 1)).invest "b" 1).investors
      = [("a", U128MOD - 1), ("b", 1)] := by
  constructor
  · decide
  · decide

/-- C6: `simulate_profit` is the aggregate stake divided by 10 with integer
floor division: `10 * result ≤ total_stake < 10 * result + 10`, and at
aggregate stake 955 the result is exactly 95. -/
theorem simulate_profit_floor_division (c : Contract) :
    10 * c.simulate_profit ≤ c.total_stake ∧
    c.total_stake < 10 * c.simulate_profit + 10 ∧
    ({ c with total_stake := 955 } : Contract).simulate_profit = 95 := by
  refine ⟨?_, ?_, ?_⟩
  · show 10 * (c.total_stake / 10) ≤ c.total_stake
    rw [Nat.mul_comm]
    exact Nat.div_mul_le_self c.total_stake 10
  · show c.total_stake < 10 * (c.total_stake / 10) + 10
    have hdm := Nat.div_add_mod c.total_stake 10
    have hmod : c.total_stake % 10 < 10 := Nat.mod_lt _ (by norm_num)
    calc c.total_stake = 10 * (c.total_stake / 10) + c.total_stake % 10 := hdm.symm
    _ < 10 * (c.total_stake / 10) + 10 := Nat.add_lt_add_left hmod _
  · show (955 : Nat) / 10 = 95
    decide

/-- C10: `select_winner` is a `&self` method: whatever it returns (winner or
`NoPlayers`), the post-state equals the pre-state in every field, and every
past player is still in the player mapping, eligible for later draws. -/
theorem select_winner_no_mutation (c : Contract) (entropy : List Nat) :
    (c.select_winner entropy).2.2 = c ∧
    (c.select_winner entropy).2.2.investors = c.investors ∧
    (c.select_winner entropy).2.2.players = c.players ∧
    (c.select_winner entropy).2.2.total_stake = c.total_stake ∧
    (c.select_winner entropy).2.2.min_deposit = c.min_deposit ∧
    ∀ p ∈ c.players, p ∈ (c.select_winner entropy).2.2.players := by
  have h : (c.select_winner entropy).2.2 = c := by
    by_cases hcp : (c.players.map Prod.fst).isEmpty
    · simp [Contract.select_winner, hcp]
    · simp [Contract.select_winner, hcp]
  exact ⟨h, by rw [h], by rw [h], by rw [h], by rw [h], fun p hp => by rw [h]; exact hp⟩

lemma investAll_stake_eq (calls : List (AccountId × Nat)) :
    ∀ c : Contract, (calls.map Prod.fst).Nodup →
    (∀ k ∈ calls.map Prod.fst, k ∉ c.investors.map Prod.fst) →
    c.total_stake = c.total_investment →
    (c.investAll calls).total_stake = (c.investAll calls).total_investment := by
  induction calls with
  | nil =>
    intro c _ _ hts
    simpa [Contract.investAll] using hts
  | cons kv t ih =>
    intro c hnd hdisj hts
    have hmem : kv.1 ∉ c.investors.map Prod.fst := hdisj kv.1 (by simp)
    have hkey : (c.invest kv.1 kv.2).investors = c.investors ++ [(kv.1, kv.2)] :=
      mapInsert_of_not_mem kv.1 kv.2 c.investors hmem
    have hndc : (kv.1 :: t.map Prod.fst).Nodup := by simpa using hnd
    have hstep : c.investAll (kv :: t) = (c.invest kv.1 kv.2).investAll t := rfl
    rw [hstep]
    apply ih
    · exact hndc.of_cons
    · intro k hk
      have hkne : k ≠ kv.1 := fun he => (List.nodup_cons.mp hndc).1 (he ▸ hk)
      intro hmem'
      rw [hkey, List.map_append] at hmem'
      rcases List.mem_append.mp hmem' with h1 | h2
      · exact hdisj k (by simp [hk]) h1
      · exact hkne (by simpa using h2)
    · have hts' : c.total_stake = (c.investors.map Prod.snd).sum % U128MOD := by
        rw [hts, total_investment_eq_sum_mod]
      show (c.total_stake + kv.2) % U128MOD = (c.invest kv.1 kv.2).total_investment
      rw [total_investment_eq_sum_mod, hkey, List.map_append, List.sum_append, hts']
      simp [Nat.mod_add_mod]

/-- C1 counterexample: after `invest(100)` twice from the same account, the
second insert overwrites the recorded balance while `total_stake`
accumulates, so `total_stake = 200` but `total_investment() = 100`. -/
theorem invest_repeat_breaks_stake_sum :
    ((Contract.new "o" "s" 0).investAll [("a", 100), ("a", 100)]).total_stake = 200 ∧
    ((Contract.new "o" "s" 0).investAll [("a", 100), ("a", 100)]).total_investment = 100 ∧
    ((Contract.new "o" "s" 0).investAll [("a", 100), ("a", 100)]).total_stake
      ≠ ((Contract.new "o" "s" 0).investAll [("a", 100), ("a", 100)]).total_investment :=
  ⟨by decide, by decide, by decide⟩

/-- C1 (amended): for every sequence of successful invest calls in which each
account invests at most once, `total_stake` equals `total_investment()`; the
unrestricted claim fails because a repeated invest overwrites the investor's
recorded balance while still adding the full amount to `total_stake`. -/
theorem invest_distinct_total_stake_eq (o s : AccountId) (m : Nat)
    (calls : List (AccountId × Nat)) (hnd : (calls.map Prod.fst).Nodup) :
    ((Contract.new o s m).investAll calls).total_stake
      = ((Contract.new o s m).investAll calls).total_investment := by
  apply investAll_stake_eq calls (Contract.new o s m) hnd
  · intro k hk
    simp [Contract.new]
  · rfl

/-- Witness for amended C1: two distinct investors, 100 and 200, give
`total_stake = total_investment()`. -/
theorem invest_distinct_total_stake_eq_witness :
    ((([("a", 100), ("b", 200)] : List (AccountId × Nat)).map Prod.fst).Nodup) ∧
    ((Contract.new "o" "s" 0).investAll [("a", 100), ("b", 200)]).total_stake
      = ((Contract.new "o" "s" 0).investAll [("a", 100), ("b", 200)]).total_investment :=
  ⟨by decide, invest_distinct_total_stake_eq "o" "s" 0 [("a", 100), ("b", 200)] (by decide)⟩

/-- C4: `select_winner` is deterministic in its inputs: any two states with
the same (non-empty) player key sequence, drawn with the same entropy byte
sequence, yield the same winning account. -/
theorem select_winner_deterministic (c1 c2 : Contract) (entropy : List Nat)
    (hp : c1.players.map Prod.fst = c2.players.map Prod.fst)
    (hne : c1.players ≠ []) :
    ∃ a : AccountId, (c1.select_winner entropy).1 = Except.ok a ∧
      (c2.select_winner entropy).1 = Except.ok a := by
  have hne' : (c1.players.map Prod.fst).isEmpty = false := by
    cases h : c1.players with
    | nil => exact absurd h hne
    | cons p t => simp [h]
  refine ⟨(c1.players.map Prod.fst).getD
      (stdRngGenRange (buildSeed entropy) (c1.players.map Prod.fst).length) "",
    ?_, ?_⟩
  · simp [Contract.select_winner, hne']
  · simp [Contract.select_winner, hp.symm, hne']

/-- Witness for C4: two states with the same sole player key (different
balances and configuration) draw the same winner from entropy `[9]`. -/
theorem select_winner_deterministic_witness :
    ∃ a : AccountId,
      ((Contract.mk "o" "s" [] [("p", 5)] 0 0).select_winner [9]).1 = Except.ok a ∧
      ((Contract.mk "q" "r" [] [("p", 7)] 3 1).select_winner [9]).1 = Except.ok a :=
  select_winner_deterministic
    (Contract.mk "o" "s" [] [("p", 5)] 0 0)
    (Contract.mk "q" "r" [] [("p", 7)] 3 1)
    [9] rfl (by decide)

/-- C7: `total_investment()` is the sum of the investor balances: it is
invariant under any permutation (iteration order) of the investor mapping,
and whenever that sum is representable in `u128` it is returned exactly. -/
theorem total_investment_order_independent (c c' : Contract)
    (hperm : c.investors.Perm c'.investors) :
    c.total_investment = c'.total_investment ∧
    ((c.investors.map Prod.snd).sum < U128MOD →
      c.total_investment = (c.investors.map Prod.snd).sum) := by
  constructor
  · rw [total_investment_eq_sum_mod, total_investment_eq_sum_mod,
      (hperm.map Prod.snd).sum_eq]
  · intro h
    rw [total_investment_eq_sum_mod]
    exact Nat.mod_eq_of_lt h

/-- Witness for C7: `invest(100)` from "a" and `invest(200)` from "b", in
either order, give `total_investment() = 300`. -/
theorem total_investment_order_independent_witness :
    (((Contract.new "o" "s" 0).invest "a" 100).invest "b" 200).total_investment
      = (((Contract.new "o" "s" 0).invest "b" 200).invest "a" 100).total_investment ∧
    (((Contract.new "o" "s" 0).invest "a" 100).invest "b" 200).total_investment = 300 := by
  have h := total_investment_order_independent
    (((Contract.new "o" "s" 0).invest "a" 100).invest "b" 200)
    (((Contract.new "o" "s" 0).invest "b" 200).invest "a" 100)
    (by decide)
  exact ⟨h.1, (h.2 (by decide)).trans (by decide)⟩

/-- C8: the 32-byte generator seed is the entropy bytes copied in front
(`min(len, 32)` of them) followed by deterministic zero padding, and
`select_winner` consumes at most 32 entropy bytes per draw. -/
theorem select_winner_seed_zero_padded (entropy : List Nat) :
    (buildSeed entropy).length = 32 ∧
    (buildSeed entropy).take (min entropy.length 32) = entropy.take 32 ∧
    (buildSeed entropy).drop (min entropy.length 32)
      = List.replicate (32 - min entropy.length 32) 0 ∧
    ∀ c : Contract, (c.select_winner entropy).2.1 ≤ 32 := by
  have hlen : (entropy.take (min entropy.length 32)).length = min entropy.length 32 := by
    simp [List.length_take]
  refine ⟨?_, ?_, ?_, ?_⟩
  · simp only [buildSeed, List.length_append, List.length_take, List.length_replicate]
    omega
  · show (entropy.take (min entropy.length 32)
        ++ List.replicate (32 - min entropy.length 32) 0).take (min entropy.length 32)
      = entropy.take 32
    rw [List.take_left' hlen]
    rcases Nat.le_total entropy.length 32 with h | h
    · rw [min_eq_left h, List.take_length, List.take_of_length_le h]
    · rw [min_eq_right h]
  · show (entropy.take (min entropy.length 32)
        ++ List.replicate (32 - min entropy.length 32) 0).drop (min entropy.length 32)
      = List.replicate (32 - min entropy.length 32) 0
    exact List.drop_left' hlen
  · intro c
    by_cases hcp : (c.players.map Prod.fst).isEmpty
    · simp [Contract.select_winner, hcp]
    · simp [Contract.select_winner, hcp]

/-- C9 counterexample: `invest(0)` is not rejected: it succeeds and records
a zero balance for the caller (and leaves `total_stake` at 0). -/
theorem invest_zero_recorded :
    ((Contract.new "o" "s" 5).invest "alice" 0).investors = [("alice", 0)] ∧
    mapGet "alice" ((Contract.new "o" "s" 5).invest "alice" 0).investors = some 0 ∧
    ((Contract.new "o" "s" 5).invest "alice" 0).total_stake = 0 :=
  ⟨by decide, by decide, by decide⟩

/-- C9 (amended): `invest` performs no positivity validation: `invest(0)`
succeeds, storing balance 0 under the caller's key and leaving `total_stake`
unchanged (the spec's "positive amount" is a caller-side expectation, not
enforced by the code). -/
theorem invest_zero_spec (c : Contract) (caller : AccountId)
    (h : c.total_stake < U128MOD) :
    mapGet caller ((c.invest caller 0).investors) = some 0 ∧
    (c.invest caller 0).total_stake = c.total_stake := by
  constructor
  · exact mapGet_mapInsert_self caller 0 c.investors
  · show (c.total_stake + 0) % U128MOD = c.total_stake
    rw [Nat.add_zero]
    exact Nat.mod_eq_of_lt h

/-- Witness for amended C9: on a fresh contract, `invest(0)` records balance
0 for "alice" and keeps `total_stake` unchanged. -/
theorem invest_zero_spec_witness :
    mapGet "alice" (((Contract.new "o" "s" 5).invest "alice" 0).investors) = some 0 ∧
    ((Contract.new "o" "s" 5).invest "alice" 0).total_stake
      = (Contract.new "o" "s" 5).total_stake :=
  invest_zero_spec (Contract.new "o" "s" 5) "alice" (by decide)
